import Mathlib

/-!
Shallow embedding of the `http-pipe` repository (Rust) for verification.

The byte type `Bytes` models Rust's `bytes::Bytes` as a list of bytes.
The server's `Queue` (src/server/queue.rs) is modelled by its guarded
buffer `VecDeque<Option<Packet>>` as a Lean list; `Poll` mirrors
`std::task::Poll`.  Operations that can panic in Rust (an out-of-bounds
`VecDeque` index, an `unwrap` of `None`) are embedded as `Option`-valued
functions where `none` is the panic.
-/

/-- Bytes, modelling `bytes::Bytes` / `BytesMut` as a list of byte values. -/
abbrev Bytes := List Nat

/-- `Packet` from src/common/packet.rs: `{ index: usize, data: Bytes }`. -/
structure Packet where
  index : Nat
  data : Bytes
deriving DecidableEq, Repr

/-- The buffer of `Queue` (src/server/queue.rs): `VecDeque<Option<Packet>>`. -/
abbrev QState := List (Option Packet)

/-- `std::task::Poll`. -/
inductive Poll (α : Type) where
  | ready : α → Poll α
  | pending : Poll α
deriving DecidableEq, Repr

/-- The queue capacity used by the server: `Queue::new(16)` in `Conn::new`
(src/server/server.rs line 71). -/
def QUEUE_CAPACITY : Nat := 16

/-- `Queue::poll_push` (src/server/queue.rs lines 50-62): if the buffer
length is below capacity, append `Some(e)` at the back and return `Ready`
(the boolean `true`); otherwise register the writer's waker and return
`Pending` (`false`), leaving the buffer unchanged.  The waker lists are
not part of the buffer state and are modelled only through the returned
flag where a claim needs them. -/
def pollPush (capacity : Nat) (q : QState) (e : Packet) : QState × Bool :=
  if q.length < capacity then (q ++ [some e], true) else (q, false)

/-- `Queue::poll_get` (src/server/queue.rs lines 64-83).  Result `none`
is a Rust panic: the code evaluates `q[0].as_ref().unwrap().index`, which
panics when the front slot is a hole.  Otherwise:
empty buffer suspends (`Poll.pending`); `index` below the front packet's
index resolves to `Ready(None)`; an in-window `index` resolves to the
slot's content `q[index - first_index]`; anything past the window
suspends. -/
def pollGet (q : QState) (index : Nat) : Option (Poll (Option Packet)) :=
  match q with
  | [] => some Poll.pending
  | none :: _ => none
  | some p :: _ =>
    let first_index := p.index
    if index < first_index then some (Poll.ready none)
    else if first_index ≤ index ∧ first_index + q.length > index then
      some (Poll.ready (q.getD (index - first_index) none))
    else some Poll.pending

/-- `Queue::remove` (src/server/queue.rs lines 93-109).  Result `none` is
a Rust panic.  The code first early-returns (without waking anyone) when
the buffer is empty or the front packet's index exceeds `index`; the
front `unwrap` panics on a hole at the front.  On the main path it writes
`None` at offset `index - first_index` — an out-of-bounds `VecDeque`
index panics when that offset is not below the buffer length — then pops
every leading `None` slot, and finally calls `wakeup_writer()`
unconditionally (the returned flag `true`). -/
def queueRemove (q : QState) (index : Nat) : Option (QState × Bool) :=
  match q with
  | [] => some ([], false)
  | none :: _ => none
  | some p :: _ =>
    if p.index > index then some (q, false)
    else if index - p.index < q.length then
      some (((q.set (index - p.index) none).dropWhile Option.isNone), true)
    else none

/-- One queue operation, for traces over the queue state. -/
inductive QueueOp where
  | push : Packet → QueueOp
  | get : Nat → QueueOp
  | remove : Nat → QueueOp

/-- Effect of one operation on the buffer.  `poll_get` never mutates the
buffer; a pending `poll_push` leaves it unchanged; a panicking `remove`
unwinds before having mutated anything, so the state is kept. -/
def queueStep (q : QState) : QueueOp → QState
  | QueueOp.push p => (pollPush QUEUE_CAPACITY q p).1
  | QueueOp.get _ => q
  | QueueOp.remove i =>
    match queueRemove q i with
    | some (q', _) => q'
    | none => q

/-- Buffer state after a trace of operations starting from the empty queue. -/
def queueRun (ops : List QueueOp) : QState :=
  List.foldl queueStep [] ops

/-- The sequencer loop body of `Conn::new` (src/server/server.rs lines
74-101), linearised over the stream of packets the sequencer receives
from the worker mailboxes (it is a single task, so its receptions are
totally ordered).  State is the local counter `index`; the result is the
list of packets pushed onto the queue.  A packet with `index < counter`
is skipped (`continue`); one with `index == counter` is pushed and the
counter incremented, and if its body is empty (EOF) the loop breaks after
the push; on `index > counter` the `debug_assert!(packet.index == index)`
fails, the sequencer task panics (debug build), and nothing further is
pushed. -/
def seqRun : Nat → List Packet → List Packet
  | _, [] => []
  | c, p :: rest =>
    if p.index < c then seqRun c rest
    else if p.index = c then
      if p.data.isEmpty then [p]
      else p :: seqRun (c + 1) rest
    else []

/-- Client role selection (src/client/mod.rs lines 7-15 and the identical
match in src/client/client.rs): `match (atty(stdin), atty(stdout))`. -/
inductive Role where
  | sender
  | receiver
  | error
deriving DecidableEq, Repr

/-- `(false, true) => sender`, `(true, _) => receiver`, `_ => bail`. -/
def clientRole (stdinIsTty stdoutIsTty : Bool) : Role :=
  match stdinIsTty, stdoutIsTty with
  | false, true => Role.sender
  | true, _ => Role.receiver
  | _, _ => Role.error

/-- Sender constants (src/client/sender.rs lines 12-14). -/
def WORKER_NUM : Nat := 4

def PACKET_SIZE : Nat := 1 * 1024 * 1024

def BUFFER_SIZE : Nat := 64 * 1024

/-- The sender driver's inner accumulation loop (src/client/sender.rs
lines 108-116): `while bytes.len() < PACKET_SIZE` read up to
`BUFFER_SIZE` bytes from stdin into `bytes`; a zero-length read sets
`is_eof` and breaks.  Reads are modelled deterministically as returning
`min BUFFER_SIZE remaining` bytes.  Returns the accumulated packet body,
the unread remainder of the input, and the `is_eof` flag. -/
def fillPacket (input acc : Bytes) : Bytes × Bytes × Bool :=
  if acc.length < PACKET_SIZE then
    if input.length = 0 then (acc, [], true)
    else
      let n := min BUFFER_SIZE input.length
      fillPacket (input.drop n) (acc ++ input.take n)
  else (acc, input, false)
termination_by input.length
decreasing_by
  simp only [List.length_drop]
  have hb : 0 < BUFFER_SIZE := by norm_num [BUFFER_SIZE]
  omega

theorem fillPacket_append (input acc : Bytes) :
    (fillPacket input acc).1 ++ (fillPacket input acc).2.1 = acc ++ input := by
  induction input, acc using fillPacket.induct with
  | case1 input acc _ _ =>
    rw [fillPacket]
    simp_all
  | case2 input acc hlt hne n ih =>
    rw [fillPacket]
    simp only [if_pos hlt, if_neg hne]
    rw [ih]
    simp
  | case3 input acc hge =>
    rw [fillPacket]
    simp [if_neg hge]

theorem fillPacket_eof_rest (input acc : Bytes)
    (h : (fillPacket input acc).2.2 = true) : (fillPacket input acc).2.1 = [] := by
  induction input, acc using fillPacket.induct with
  | case1 input acc _ _ =>
    rw [fillPacket]
    simp_all
  | case2 input acc hlt hne n ih =>
    rw [fillPacket] at h ⊢
    simp only [if_pos hlt, if_neg hne] at h ⊢
    exact ih h
  | case3 input acc hge =>
    rw [fillPacket] at h
    simp [if_neg hge] at h

theorem fillPacket_not_eof_len (input acc : Bytes)
    (h : (fillPacket input acc).2.2 = false) :
    PACKET_SIZE ≤ (fillPacket input acc).1.length := by
  induction input, acc using fillPacket.induct with
  | case1 input acc _ _ =>
    rw [fillPacket] at h
    simp_all
  | case2 input acc hlt hne n ih =>
    rw [fillPacket] at h ⊢
    simp only [if_pos hlt, if_neg hne] at h ⊢
    exact ih h
  | case3 input acc hge =>
    rw [fillPacket]
    simp [if_neg hge]
    omega

theorem fillPacket_not_eof_rest_lt (input : Bytes)
    (h : (fillPacket input []).2.2 = false) :
    (fillPacket input []).2.1.length < input.length := by
  have happ := fillPacket_append input []
  have hlen := fillPacket_not_eof_len input [] h
  have : (fillPacket input []).1.length + (fillPacket input []).2.1.length
      = input.length := by
    rw [← List.length_append, happ]
    simp
  have hp : 0 < PACKET_SIZE := by norm_num [PACKET_SIZE]
  omega

/-- The sender driver loop (src/client/sender.rs lines 95-125), projected
to the sequence of packets handed to the workers in driver order (packet
at list position `k` goes to worker `(index0 + k) % WORKER_NUM`, since
the driver iterates `senders` in rotation).  Each round: if `is_eof` was
set, hand the next worker an empty-body packet with the current index and
stop; otherwise accumulate a body with `fillPacket`, hand it over with
the current index, and increment the index. -/
def sendPackets (input : Bytes) (index : Nat) : List Packet :=
  if (fillPacket input []).2.2 then
    [⟨index, (fillPacket input []).1⟩, ⟨index + 1, []⟩]
  else
    ⟨index, (fillPacket input []).1⟩ :: sendPackets (fillPacket input []).2.1 (index + 1)
termination_by input.length
decreasing_by
  apply fillPacket_not_eof_rest_lt
  rename_i h
  exact Bool.not_eq_true _ ▸ h

/-- Receiver worker `run` (src/client/receiver.rs lines 41-67), projected
to the sequence of payloads the worker with start index `i` delivers on
its output mailbox: the payloads of packets `i, i + WORKER_NUM, …`, up to
(and not including) the first empty payload, at which point the worker
exits and its mailbox closes.  `pkts` is the packet payload list indexed
by packet index; an index past the end of the stream leaves the worker
suspended in `queue.get`, delivering nothing further. -/
def workerStream (pkts : List Bytes) (i : Nat) : List Bytes :=
  if h : i < pkts.length then
    if (pkts[i]).isEmpty then [] else pkts[i] :: workerStream pkts (i + WORKER_NUM)
  else []
termination_by pkts.length - i
decreasing_by
  have hw : 0 < WORKER_NUM := by norm_num [WORKER_NUM]
  omega

/-- Receiver driver loop (src/client/receiver.rs lines 97-105): visit the
worker output mailboxes in rotation, writing one payload per visit to
stdout; stop as soon as a mailbox yields nothing more. -/
def rotMerge : List (List Bytes) → List Bytes
  | [] => []
  | [] :: _ => []
  | (b :: s) :: rest => b :: rotMerge (rest ++ [s])
termination_by streams => (streams.map List.length).sum
decreasing_by
  simp [List.sum_append]
  omega

/-- The full receiver (workers plus driver): the stream of payloads
written to stdout, given the relayed packet payloads in index order. -/
def receiverOutput (pkts : List Bytes) : List Bytes :=
  rotMerge [workerStream pkts 0, workerStream pkts 1,
            workerStream pkts 2, workerStream pkts 3]

/-- Outcome of one HTTP handler invocation on the server. -/
inductive HOutcome where
  | ok
  | badRequest
  | preconditionFailed
  | gone
  | internalError
  | suspended
  | crashed
deriving DecidableEq, Repr

/-- The tail of the GET handler `send` (src/server/server.rs lines
197-206): parse `x-index` (missing or unparsable → 400 by the
`ControllerError` conversion at lines 39-48), then `queue.get`; `None`
→ 410 gone, a packet → 200 with its body; a pending poll suspends the
handler.  A header value is `none` (absent), `some none` (present but
failing `to_str`/`parse`), or `some (some v)`. -/
def handleGetIndex (q : QState) (indexHdr : Option (Option Nat)) :
    HOutcome × Option QState :=
  match indexHdr with
  | none => (HOutcome.badRequest, some q)
  | some none => (HOutcome.badRequest, some q)
  | some (some di) =>
    match pollGet q di with
    | none => (HOutcome.crashed, some q)
    | some Poll.pending => (HOutcome.suspended, some q)
    | some (Poll.ready none) => (HOutcome.gone, some q)
    | some (Poll.ready (some _)) => (HOutcome.ok, some q)

/-- The GET handler `send` (src/server/server.rs lines 185-206).
`channel` is the queue buffer of the channel at the request path, if
any.  With `x-reset` present the channel is removed and 200 returned;
with no channel, 412; then `x-ack`, when present, is parsed (parse
failure → 400) and `queue.remove(ack)` is performed BEFORE `x-index` is
even looked at; finally `handleGetIndex`.  The second component is the
channel's queue buffer after the request. -/
def handleGet (resetHdr : Bool) (channel : Option QState)
    (ackHdr indexHdr : Option (Option Nat)) : HOutcome × Option QState :=
  if resetHdr then (HOutcome.ok, none)
  else
    match channel with
    | none => (HOutcome.preconditionFailed, none)
    | some q =>
      match ackHdr with
      | some none => (HOutcome.badRequest, some q)
      | some (some a) =>
        match queueRemove q a with
        | none => (HOutcome.crashed, some q)
        | some (q', _) => handleGetIndex q' indexHdr
      | none => handleGetIndex q indexHdr

/-- The PUT handler `recv` (src/server/server.rs lines 138-183).  With
`x-reset`, its value is parsed as the worker count (parse failure → 400)
and a fresh channel installed, 200.  Otherwise `x-worker` then `x-index`
are parsed (missing or unparsable → 400), the channel is looked up (none
→ 412), `conn.senders[worker_index]` is indexed (out of range → Rust
panic), the body is read (payload error → 500 via `anyhow`), and the
packet is sent into the worker's mailbox (closed channel → 500); success
→ 200.  `channelWorkerCount` is the worker count of the channel at the
path, if any. -/
def handlePut (resetHdr : Option (Option Nat)) (channelWorkerCount : Option Nat)
    (workerHdr indexHdr : Option (Option Nat)) (bodyOk mailboxOpen : Bool) :
    HOutcome :=
  match resetHdr with
  | some none => HOutcome.badRequest
  | some (some _) => HOutcome.ok
  | none =>
    match workerHdr with
    | none => HOutcome.badRequest
    | some none => HOutcome.badRequest
    | some (some wi) =>
      match indexHdr with
      | none => HOutcome.badRequest
      | some none => HOutcome.badRequest
      | some (some _) =>
        match channelWorkerCount with
        | none => HOutcome.preconditionFailed
        | some w =>
          if wi < w then
            if bodyOk then
              if mailboxOpen then HOutcome.ok else HOutcome.internalError
            else HOutcome.internalError
          else HOutcome.crashed

theorem seqRun_map_index (l : List Packet) (c : Nat) :
    (seqRun c l).map Packet.index = List.range' c (seqRun c l).length := by
  induction l generalizing c with
  | nil => simp [seqRun]
  | cons p rest ih =>
    simp only [seqRun]
    by_cases h1 : p.index < c
    · simp only [if_pos h1]
      exact ih c
    · by_cases h2 : p.index = c
      · by_cases h3 : p.data.isEmpty
        · simp [h1, h2, h3, List.range'_succ]
        · simp [h1, h2, h3, List.range'_succ, ih (c + 1)]
      · simp [h1, h2]

theorem sendPackets_map_index (input : Bytes) (i : Nat) :
    (sendPackets input i).map Packet.index
      = List.range' i (sendPackets input i).length := by
  induction input, i using sendPackets.induct with
  | case1 input i heof =>
    rw [sendPackets]
    simp [heof, List.range'_succ]
  | case2 input i heof ih =>
    rw [sendPackets]
    simp only [Bool.not_eq_true] at heof
    simp [heof, List.range'_succ, ih]

theorem seqRun_data_takeWhile (ps : List Packet) (c : Nat)
    (h : ps.map Packet.index = List.range' c ps.length) :
    ((seqRun c ps).map Packet.data).takeWhile (fun b => !b.isEmpty)
      = (ps.map Packet.data).takeWhile (fun b => !b.isEmpty) := by
  induction ps generalizing c with
  | nil => simp [seqRun]
  | cons p rest ih =>
    simp only [List.map_cons, List.length_cons, List.range'_succ, List.cons.injEq] at h
    obtain ⟨hpc, hrest⟩ := h
    simp only [seqRun]
    rw [if_neg (by omega), if_pos hpc]
    by_cases h3 : p.data.isEmpty
    · simp [h3]
    · rw [if_neg h3]
      simp only [List.map_cons]
      rw [List.takeWhile_cons_of_pos (by simp [h3]),
          List.takeWhile_cons_of_pos (by simp [h3])]
      rw [ih (c + 1) hrest]

theorem workerStream_nil (pkts : List Bytes) (n : Nat) (h : pkts.length ≤ n) :
    workerStream pkts n = [] := by
  rw [workerStream, dif_neg (by omega)]

theorem rotMerge_nil_head (rest : List (List Bytes)) :
    rotMerge ([] :: rest) = [] := by
  rw [rotMerge.eq_def]

theorem rotMerge_cons_head (b : Bytes) (s : List Bytes) (rest : List (List Bytes)) :
    rotMerge ((b :: s) :: rest) = b :: rotMerge (rest ++ [s]) := by
  rw [rotMerge.eq_def]

theorem rotMerge_workerStream (pkts : List Bytes) (n : Nat) :
    rotMerge [workerStream pkts n, workerStream pkts (n + 1),
              workerStream pkts (n + 2), workerStream pkts (n + 3)]
      = (pkts.drop n).takeWhile (fun b => !b.isEmpty) := by
  have H : ∀ m n, pkts.length - n ≤ m →
      rotMerge [workerStream pkts n, workerStream pkts (n + 1),
                workerStream pkts (n + 2), workerStream pkts (n + 3)]
        = (pkts.drop n).takeWhile (fun b => !b.isEmpty) := by
    intro m
    induction m with
    | zero =>
      intro n hn
      have hle : pkts.length ≤ n := by omega
      rw [workerStream_nil pkts n hle, rotMerge_nil_head,
          List.drop_eq_nil_of_le hle]
      simp
    | succ m ih =>
      intro n hn
      by_cases h : n < pkts.length
      · have hd : pkts.drop n = pkts[n] :: pkts.drop (n + 1) :=
          List.drop_eq_getElem_cons h
        by_cases he : (pkts[n]).isEmpty
        · have hws : workerStream pkts n = [] := by
            rw [workerStream, dif_pos h, if_pos he]
          rw [hws, rotMerge_nil_head, hd,
              List.takeWhile_cons_of_neg (by simp [he])]
        · have hws : workerStream pkts n
              = pkts[n] :: workerStream pkts (n + WORKER_NUM) := by
            rw [workerStream, dif_pos h, if_neg he]
          rw [hws, rotMerge_cons_head, hd,
              List.takeWhile_cons_of_pos (by simp [he])]
          have hih := ih (n + 1) (by omega)
          have e1 : n + 1 + 1 = n + 2 := by omega
          have e2 : n + 1 + 2 = n + 3 := by omega
          have e3 : n + 1 + 3 = n + 4 := by omega
          rw [e1, e2, e3] at hih
          rw [← hih]
          simp [WORKER_NUM]
      · have hle : pkts.length ≤ n := by omega
        rw [workerStream_nil pkts n hle, rotMerge_nil_head,
            List.drop_eq_nil_of_le hle]
        simp
  exact H pkts.length n (by omega)

theorem join_takeWhile_sendPackets (input : Bytes) (i : Nat) :
    (((sendPackets input i).map Packet.data).takeWhile
        (fun b => !b.isEmpty)).flatten = input := by
  induction input, i using sendPackets.induct with
  | case1 input i heof =>
    rw [sendPackets]
    have hrest : (fillPacket input []).2.1 = [] := fillPacket_eof_rest input [] heof
    have happ : (fillPacket input []).1 ++ (fillPacket input []).2.1 = input := by
      simpa using fillPacket_append input []
    rw [hrest, List.append_nil] at happ
    simp only [heof, if_true, List.map_cons, List.map_nil]
    by_cases hbe : ((fillPacket input []).1).isEmpty
    · have hnil : (fillPacket input []).1 = [] := by
        simpa [List.isEmpty_iff] using hbe
      rw [List.takeWhile_cons_of_neg (by simp [hbe])]
      rw [← happ, hnil]
      rfl
    · rw [List.takeWhile_cons_of_pos (by simp [hbe]),
          List.takeWhile_cons_of_neg (by simp)]
      simp [happ]
  | case2 input i heof ih =>
    rw [sendPackets]
    simp only [Bool.not_eq_true] at heof
    have hlen := fillPacket_not_eof_len input [] heof
    have hne : ¬((fillPacket input []).1).isEmpty := by
      have hp : 0 < PACKET_SIZE := by norm_num [PACKET_SIZE]
      simp only [List.isEmpty_iff]
      intro hnil
      rw [hnil] at hlen
      simp at hlen
      omega
    have happ : (fillPacket input []).1 ++ (fillPacket input []).2.1 = input := by
      simpa using fillPacket_append input []
    rw [if_neg (by simp [heof]), List.map_cons,
        List.takeWhile_cons_of_pos (by simp [hne])]
    simp only [List.flatten_cons]
    rw [ih, happ]

theorem queueRemove_length_le (q : QState) (i : Nat) (r : QState × Bool)
    (h : queueRemove q i = some r) : r.1.length ≤ q.length := by
  match q with
  | [] =>
    simp only [queueRemove, Option.some.injEq] at h
    rw [← h]
  | none :: t => simp [queueRemove] at h
  | some p :: t =>
    simp only [queueRemove] at h
    by_cases h1 : p.index > i
    · rw [if_pos h1] at h
      injection h with h
      rw [← h]
    · rw [if_neg h1] at h
      by_cases h2 : i - p.index < (some p :: t : QState).length
      · rw [if_pos h2] at h
        injection h with h
        rw [← h]
        calc (((some p :: t : QState).set (i - p.index) none).dropWhile
                Option.isNone).length
            ≤ ((some p :: t : QState).set (i - p.index) none).length :=
              (List.dropWhile_sublist _).length_le
          _ = (some p :: t : QState).length := List.length_set ..
      · rw [if_neg h2] at h
        exact absurd h (by simp)

theorem queueStep_length_le (q : QState) (op : QueueOp)
    (h : q.length ≤ QUEUE_CAPACITY) : (queueStep q op).length ≤ QUEUE_CAPACITY := by
  cases op with
  | push p =>
    simp only [queueStep, pollPush]
    by_cases hl : q.length < QUEUE_CAPACITY
    · simp only [if_pos hl]
      simp
      omega
    · simp only [if_neg hl]
      exact h
  | get i => simpa [queueStep]
  | remove i =>
    simp only [queueStep]
    cases hq : queueRemove q i with
    | none => simpa
    | some r =>
      obtain ⟨q', w⟩ := r
      have hle := queueRemove_length_le q i (q', w) hq
      show q'.length ≤ QUEUE_CAPACITY
      simp only at hle
      omega

theorem queueRun_length_le (ops : List QueueOp) :
    (queueRun ops).length ≤ QUEUE_CAPACITY := by
  have H : ∀ (l : List QueueOp) (q : QState), q.length ≤ QUEUE_CAPACITY →
      (List.foldl queueStep q l).length ≤ QUEUE_CAPACITY := by
    intro l
    induction l with
    | nil => intro q h; simpa
    | cons op rest ih =>
      intro q h
      exact ih (queueStep q op) (queueStep_length_le q op h)
  exact H ops [] (by simp [QUEUE_CAPACITY])


/-- Claim C1: end-to-end round trip.  For every finite input byte stream,
partitioning it into packets (sender driver, `sendPackets`), relaying
them in index order through the sequencer (`seqRun`), having receiver
worker `i` fetch the payloads of indices `i, i+4, i+8, …`
(`workerStream`) and interleaving the workers in the driver rotation
`0,1,2,3` (`rotMerge` via `receiverOutput`) concatenates back to exactly
the input bytes. -/
theorem c1_round_trip (input : Bytes) :
    (receiverOutput ((seqRun 0 (sendPackets input 0)).map Packet.data)).flatten
      = input := by
  have h0 := rotMerge_workerStream ((seqRun 0 (sendPackets input 0)).map Packet.data) 0
  rw [List.drop_zero] at h0
  norm_num at h0
  have hidx : (sendPackets input 0).map Packet.index
      = List.range' 0 (sendPackets input 0).length := sendPackets_map_index input 0
  have hseq := seqRun_data_takeWhile (sendPackets input 0) 0 hidx
  rw [receiverOutput, h0, hseq]
  exact join_takeWhile_sendPackets input 0

/-- Claim C2: sequencer monotonic-index invariant.  The packets the
sequencer pushes form the index sequence `0, 1, 2, …` with no gaps and no
duplicates, for every stream of arriving packets; and an arrival with
`index < expected` is skipped without being pushed. -/
theorem c2_sequencer_monotonic :
    (∀ arrivals : List Packet,
        (seqRun 0 arrivals).map Packet.index
          = List.range (seqRun 0 arrivals).length)
      ∧ (∀ (c : Nat) (p : Packet) (rest : List Packet), p.index < c →
          seqRun c (p :: rest) = seqRun c rest) := by
  constructor
  · intro arrivals
    rw [List.range_eq_range']
    exact seqRun_map_index arrivals 0
  · intro c p rest h
    simp [seqRun, h]

theorem c2_sequencer_monotonic_witness :
    ((seqRun 0 [⟨0, [1]⟩, ⟨0, [1]⟩, ⟨1, [2]⟩, ⟨2, []⟩]).map Packet.index
        = List.range (seqRun 0 [⟨0, [1]⟩, ⟨0, [1]⟩, ⟨1, [2]⟩, ⟨2, []⟩]).length)
      ∧ (0 : Nat) < 1
      ∧ seqRun 1 [⟨0, [1]⟩, ⟨1, [2]⟩] = seqRun 1 [⟨1, [2]⟩] :=
  ⟨c2_sequencer_monotonic.1 [⟨0, [1]⟩, ⟨0, [1]⟩, ⟨1, [2]⟩, ⟨2, []⟩],
   by decide,
   c2_sequencer_monotonic.2 1 ⟨0, [1]⟩ [⟨1, [2]⟩] (by decide)⟩

/-- Claim C3: `Queue.get(index)` trichotomy.  A poll on the empty queue
suspends; on a queue whose first slot holds a packet with index `B`, a
poll for `index < B` resolves immediately with `None`, a poll for
`B ≤ index < B + length` resolves immediately with the slot content at
offset `index - B` (itself possibly `None` for an evicted hole), and a
poll for `index ≥ B + length` suspends. -/
theorem c3_poll_get_trichotomy :
    (∀ i : Nat, pollGet [] i = some Poll.pending)
      ∧ ∀ (p : Packet) (t : QState) (i : Nat),
          (i < p.index → pollGet (some p :: t) i = some (Poll.ready none))
          ∧ (p.index ≤ i → i < p.index + (some p :: t : QState).length →
              pollGet (some p :: t) i
                = some (Poll.ready ((some p :: t : QState).getD (i - p.index) none)))
          ∧ (p.index + (some p :: t : QState).length ≤ i →
              pollGet (some p :: t) i = some Poll.pending) := by
  refine ⟨fun i => rfl, fun p t i => ⟨fun h1 => ?_, fun h2 h3 => ?_, fun h4 => ?_⟩⟩
  · simp [pollGet, h1]
  · simp only [pollGet, List.length_cons] at h3 ⊢
    rw [if_neg (by omega), if_pos (by constructor <;> omega)]
  · simp only [pollGet, List.length_cons] at h4 ⊢
    rw [if_neg (by omega), if_neg (by omega)]

theorem c3_poll_get_trichotomy_witness :
    pollGet [] 3 = some Poll.pending
      ∧ ((1 : Nat) < 2
          ∧ pollGet [some ⟨2, [7]⟩, none, some ⟨4, [9]⟩] 1 = some (Poll.ready none))
      ∧ ((2 : Nat) ≤ 3 ∧ (3 : Nat) < 2 + 3
          ∧ pollGet [some ⟨2, [7]⟩, none, some ⟨4, [9]⟩] 3
              = some (Poll.ready (([some ⟨2, [7]⟩, none, some ⟨4, [9]⟩] : QState).getD 1 none)))
      ∧ ((2 : Nat) + 3 ≤ 5
          ∧ pollGet [some ⟨2, [7]⟩, none, some ⟨4, [9]⟩] 5 = some Poll.pending) := by
  refine ⟨c3_poll_get_trichotomy.1 3, ⟨by decide, ?_⟩, ⟨by decide, by decide, ?_⟩,
          ⟨by decide, ?_⟩⟩
  · exact (c3_poll_get_trichotomy.2 ⟨2, [7]⟩ [none, some ⟨4, [9]⟩] 1).1 (by decide)
  · exact (c3_poll_get_trichotomy.2 ⟨2, [7]⟩ [none, some ⟨4, [9]⟩] 3).2.1
      (by decide) (by decide)
  · exact (c3_poll_get_trichotomy.2 ⟨2, [7]⟩ [none, some ⟨4, [9]⟩] 5).2.2 (by decide)

/-- Claim C4: queue capacity bound.  Over every sequence of push, get and
remove operations from the empty queue, the buffer length (present
packets plus holes) never exceeds the capacity `C = 16`; a push appends
exactly when the current length is strictly below capacity, and
otherwise leaves the buffer unchanged and suspends the caller. -/
theorem c4_queue_capacity :
    (∀ ops : List QueueOp, (queueRun ops).length ≤ QUEUE_CAPACITY)
      ∧ (∀ (q : QState) (p : Packet), q.length < QUEUE_CAPACITY →
          pollPush QUEUE_CAPACITY q p = (q ++ [some p], true))
      ∧ (∀ (q : QState) (p : Packet), ¬q.length < QUEUE_CAPACITY →
          pollPush QUEUE_CAPACITY q p = (q, false)) := by
  refine ⟨queueRun_length_le, fun q p h => ?_, fun q p h => ?_⟩
  · simp [pollPush, h]
  · simp [pollPush, h]

theorem c4_queue_capacity_witness :
    (queueRun [QueueOp.push ⟨0, [1]⟩, QueueOp.push ⟨1, [2]⟩]).length ≤ QUEUE_CAPACITY
      ∧ (([] : QState).length < QUEUE_CAPACITY
          ∧ pollPush QUEUE_CAPACITY [] ⟨0, [1]⟩ = ([some ⟨0, [1]⟩], true))
      ∧ (¬(List.replicate 16 (none : Option Packet)).length < QUEUE_CAPACITY
          ∧ pollPush QUEUE_CAPACITY (List.replicate 16 none) ⟨9, [1]⟩
              = (List.replicate 16 none, false)) := by
  refine ⟨c4_queue_capacity.1 [QueueOp.push ⟨0, [1]⟩, QueueOp.push ⟨1, [2]⟩],
          ⟨by decide, ?_⟩, ⟨by decide, ?_⟩⟩
  · exact c4_queue_capacity.2.1 [] ⟨0, [1]⟩ (by decide)
  · exact c4_queue_capacity.2.2 (List.replicate 16 none) ⟨9, [1]⟩ (by decide)

/-- Claim C5, counterexample.  On an empty input the sender driver does
not stop after one EOF packet: it hands out TWO empty-body packets — the
accumulated (empty) packet with index 0 to worker 0, and then the EOF
packet with index 1 to the next worker in the rotation (worker 1).  So
the packet list is not the singleton `[{index 0, empty}]` the claim
demands, and a further packet IS enqueued to worker 1. -/
theorem c5_counterexample :
    sendPackets [] 0 ≠ [⟨0, []⟩] ∧ (sendPackets [] 0).length = 2 := by
  have h : fillPacket [] [] = ([], [], true) := by
    rw [fillPacket]
    norm_num [PACKET_SIZE]
  constructor
  · rw [sendPackets]
    simp [h]
  · rw [sendPackets]
    simp [h]

/-- Claim C5, amended.  When the sender's input source signals end during
the accumulation of the packet with index `i` (in particular, before any
byte is read, with `i = 0`), the driver hands the accumulated — possibly
empty — packet with index `i` to the worker whose turn it is, and then
exactly one further EOF (empty body) packet with index `i + 1` to the
next worker in the rotation; no further packet is enqueued to any
worker. -/
theorem c5_empty_stream (input : Bytes) (i : Nat)
    (h : (fillPacket input []).2.2 = true) :
    sendPackets input i = [⟨i, (fillPacket input []).1⟩, ⟨i + 1, []⟩] := by
  rw [sendPackets, if_pos h]

theorem c5_empty_stream_witness :
    (fillPacket [] []).2.2 = true
      ∧ sendPackets [] 0 = [⟨0, (fillPacket [] []).1⟩, ⟨1, []⟩] := by
  have h : (fillPacket [] []).2.2 = true := by
    rw [fillPacket]
    norm_num [PACKET_SIZE]
  exact ⟨h, c5_empty_stream [] 0 h⟩

/-- Claim C6, counterexample.  A client with stdin AND stdout both
terminals (no pipe on either stream) does not refuse to run: the match
arm `(true, _)` makes it run as receiver. -/
theorem c6_counterexample :
    clientRole true true = Role.receiver ∧ Role.receiver ≠ Role.error :=
  ⟨rfl, by decide⟩

/-- Claim C6, amended.  The client refuses to run only when both standard
streams are pipes (stdin and stdout both non-terminals); it runs as
sender when stdin is piped and stdout is a terminal, and as receiver
whenever stdin is a terminal — regardless of whether stdout is a terminal
or a pipe. -/
theorem c6_client_role :
    clientRole false true = Role.sender
      ∧ (∀ b : Bool, clientRole true b = Role.receiver)
      ∧ clientRole false false = Role.error := by
  refine ⟨rfl, fun b => ?_, rfl⟩
  cases b <;> rfl

/-- Claim C7, counterexample.  A `remove` that only creates an interior
hole — here removing index 1 while index 0 is still present at the front,
so no slot is popped and the buffer length stays 2 — still calls
`wakeup_writer()` (flag `true`), where the claim demands that no producer
be woken. -/
theorem c7_counterexample :
    queueRemove [some ⟨0, [0]⟩, some ⟨1, [0]⟩] 1
        = some ([some ⟨0, [0]⟩, none], true)
      ∧ ([some ⟨0, [0]⟩, none] : QState).length
          = ([some ⟨0, [0]⟩, some ⟨1, [0]⟩] : QState).length := by
  constructor <;> decide

/-- Claim C7, amended.  `Queue.remove(index)` wakes no producer exactly in
the no-op cases (empty queue, or `index` below the front packet's index);
on every non-panicking run through the main path it wakes one producer
(FIFO) unconditionally — whether or not any front slot was popped. -/
theorem c7_remove_wake :
    (∀ i : Nat, queueRemove [] i = some ([], false))
      ∧ (∀ (p : Packet) (t : QState) (i : Nat), i < p.index →
          queueRemove (some p :: t) i = some (some p :: t, false))
      ∧ (∀ (p : Packet) (t : QState) (i : Nat) (r : QState × Bool),
          p.index ≤ i → queueRemove (some p :: t) i = some r → r.2 = true) := by
  refine ⟨fun i => rfl, fun p t i h => ?_, fun p t i r h1 h2 => ?_⟩
  · simp [queueRemove, h]
  · simp only [queueRemove] at h2
    rw [if_neg (by omega)] at h2
    by_cases hb : i - p.index < (some p :: t : QState).length
    · rw [if_pos hb] at h2
      injection h2 with h2
      rw [← h2]
    · rw [if_neg hb] at h2
      exact absurd h2 (by simp)

theorem c7_remove_wake_witness :
    queueRemove [] 5 = some ([], false)
      ∧ ((1 : Nat) < 3
          ∧ queueRemove [some ⟨3, [1]⟩] 1 = some ([some ⟨3, [1]⟩], false))
      ∧ ((0 : Nat) ≤ 0
          ∧ queueRemove [some ⟨0, [1]⟩] 0 = some ([], true)
          ∧ (([], true) : QState × Bool).2 = true) := by
  refine ⟨c7_remove_wake.1 5, ⟨by decide, c7_remove_wake.2.1 ⟨3, [1]⟩ [] 1 (by decide)⟩,
          ⟨by decide, by decide,
           c7_remove_wake.2.2 ⟨0, [1]⟩ [] 0 ([], true) (by decide) (by decide)⟩⟩

/-- Claim C8: the claim demands that `Queue.remove(index)` complete
without panicking for every queue state and index, in particular when
`index` is at or beyond base index plus buffer length.  The code violates
this: on a queue holding the single packet with index 0, `remove(1)`
takes the main path (1 is not below the base index), computes offset
`1 - 0 = 1` into a buffer of length 1, and the `VecDeque` index
assignment `q[1] = None` panics out of bounds (modelled as `none`). -/
theorem c8_remove_oob : queueRemove [some ⟨0, [0]⟩] 1 = none := by decide

/-- Claim C9, counterexample.  The claimed status mapping is not
universal over requests, and the handlers can crash on a single
malformed request.  Two concrete refutations: (1) a GET whose `x-ack`
header parses to 1 on a channel whose queue holds only the packet with
index 0, with `x-index` missing, panics inside `queue.remove` (the C8
out-of-bounds write) before the missing-header 400 is ever produced;
(2) a PUT with `x-worker = 5` on a channel created with 4 workers panics
at `conn.senders[5]` instead of returning any error status. -/
theorem c9_counterexample :
    handleGet false (some [some ⟨0, [0]⟩]) (some (some 1)) none
        = (HOutcome.crashed, some [some ⟨0, [0]⟩])
      ∧ handlePut none (some 4) (some (some 5)) (some (some 0)) true true
          = HOutcome.crashed
      ∧ HOutcome.crashed ≠ HOutcome.badRequest
      ∧ HOutcome.crashed ≠ HOutcome.internalError :=
  ⟨by decide, by decide, by decide, by decide⟩

/-- Claim C9, amended: server error status mapping with the two panic
exceptions.  Missing or unparsable required headers map to 400 (bad
request) on both handlers; a request path with no active channel maps to
412 (precondition failed); a GET whose `queue.get` resolves to `None`
(index already evicted) maps to 410 (gone); a present packet maps to
200; a body read failure or a closed sequencer mailbox on PUT maps to
500 (internal server error) — except that the handler panics instead of
answering in exactly two cases: a GET whose parsed `x-ack` makes
`queue.remove` panic (offset at or beyond base index plus buffer length,
or a hole at the buffer front), and a PUT whose parsed `x-worker` is not
below the channel's worker count. -/
theorem c9_status_mapping :
    (∀ ack idx, handleGet false none ack idx = (HOutcome.preconditionFailed, none))
      ∧ (∀ (q : QState) (idx : Option (Option Nat)),
          handleGet false (some q) (some none) idx = (HOutcome.badRequest, some q))
      ∧ (∀ q : QState, handleGet false (some q) none none = (HOutcome.badRequest, some q))
      ∧ (∀ q : QState,
          handleGet false (some q) none (some none) = (HOutcome.badRequest, some q))
      ∧ (∀ (q : QState) (di : Nat), pollGet q di = some (Poll.ready none) →
          handleGet false (some q) none (some (some di)) = (HOutcome.gone, some q))
      ∧ (∀ (q : QState) (di : Nat) (p : Packet),
          pollGet q di = some (Poll.ready (some p)) →
          handleGet false (some q) none (some (some di)) = (HOutcome.ok, some q))
      ∧ (∀ ch idx b m, handlePut none ch none idx b m = HOutcome.badRequest)
      ∧ (∀ ch idx b m, handlePut none ch (some none) idx b m = HOutcome.badRequest)
      ∧ (∀ ch wi b m, handlePut none ch (some (some wi)) none b m = HOutcome.badRequest)
      ∧ (∀ ch wi b m,
          handlePut none ch (some (some wi)) (some none) b m = HOutcome.badRequest)
      ∧ (∀ wi di b m, handlePut none none (some (some wi)) (some (some di)) b m
          = HOutcome.preconditionFailed)
      ∧ (∀ w wi di m, wi < w →
          handlePut none (some w) (some (some wi)) (some (some di)) false m
            = HOutcome.internalError)
      ∧ (∀ w wi di, wi < w →
          handlePut none (some w) (some (some wi)) (some (some di)) true false
            = HOutcome.internalError)
      ∧ (∀ (q : QState) (a : Nat) (idx : Option (Option Nat)),
          queueRemove q a = none →
          handleGet false (some q) (some (some a)) idx = (HOutcome.crashed, some q))
      ∧ (∀ w wi di b m, ¬wi < w →
          handlePut none (some w) (some (some wi)) (some (some di)) b m
            = HOutcome.crashed) := by
  refine ⟨fun ack idx => rfl, fun q idx => rfl, fun q => rfl, fun q => rfl,
          fun q di h => ?_, fun q di p h => ?_,
          fun ch idx b m => rfl, fun ch idx b m => rfl,
          fun ch wi b m => rfl, fun ch wi b m => rfl,
          fun wi di b m => rfl,
          fun w wi di m h => ?_, fun w wi di h => ?_,
          fun q a idx h => ?_, fun w wi di b m h => ?_⟩
  · simp [handleGet, handleGetIndex, h]
  · simp [handleGet, handleGetIndex, h]
  · simp [handlePut, h]
  · simp [handlePut, h]
  · simp [handleGet, h]
  · simp [handlePut, h]

theorem c9_status_mapping_witness :
    handleGet false none none none = (HOutcome.preconditionFailed, none)
      ∧ handleGet false (some [some ⟨5, [1]⟩]) (some none) none
          = (HOutcome.badRequest, some [some ⟨5, [1]⟩])
      ∧ handleGet false (some [some ⟨5, [1]⟩]) none none
          = (HOutcome.badRequest, some [some ⟨5, [1]⟩])
      ∧ handleGet false (some [some ⟨5, [1]⟩]) none (some none)
          = (HOutcome.badRequest, some [some ⟨5, [1]⟩])
      ∧ (pollGet [some ⟨5, [1]⟩] 3 = some (Poll.ready none)
          ∧ handleGet false (some [some ⟨5, [1]⟩]) none (some (some 3))
              = (HOutcome.gone, some [some ⟨5, [1]⟩]))
      ∧ (pollGet [some ⟨5, [1]⟩] 5 = some (Poll.ready (some ⟨5, [1]⟩))
          ∧ handleGet false (some [some ⟨5, [1]⟩]) none (some (some 5))
              = (HOutcome.ok, some [some ⟨5, [1]⟩]))
      ∧ handlePut none (some 4) none (some (some 0)) true true = HOutcome.badRequest
      ∧ handlePut none (some 4) (some none) (some (some 0)) true true
          = HOutcome.badRequest
      ∧ handlePut none (some 4) (some (some 0)) none true true = HOutcome.badRequest
      ∧ handlePut none (some 4) (some (some 0)) (some none) true true
          = HOutcome.badRequest
      ∧ handlePut none none (some (some 0)) (some (some 0)) true true
          = HOutcome.preconditionFailed
      ∧ ((0 : Nat) < 4
          ∧ handlePut none (some 4) (some (some 0)) (some (some 0)) false true
              = HOutcome.internalError)
      ∧ ((0 : Nat) < 4
          ∧ handlePut none (some 4) (some (some 0)) (some (some 0)) true false
              = HOutcome.internalError)
      ∧ (queueRemove [some ⟨0, [0]⟩] 1 = none
          ∧ handleGet false (some [some ⟨0, [0]⟩]) (some (some 1)) none
              = (HOutcome.crashed, some [some ⟨0, [0]⟩]))
      ∧ (¬(5 : Nat) < 4
          ∧ handlePut none (some 4) (some (some 5)) (some (some 0)) true true
              = HOutcome.crashed) := by
  obtain ⟨h1, h2, h3, h4, h5, h6, h7, h8, h9, h10, h11, h12, h13, h14, h15⟩ :=
    c9_status_mapping
  refine ⟨h1 none none, h2 [some ⟨5, [1]⟩] none, h3 [some ⟨5, [1]⟩], h4 [some ⟨5, [1]⟩],
          ⟨by decide, h5 [some ⟨5, [1]⟩] 3 (by decide)⟩,
          ⟨by decide, h6 [some ⟨5, [1]⟩] 5 ⟨5, [1]⟩ (by decide)⟩,
          h7 (some 4) (some (some 0)) true true, h8 (some 4) (some (some 0)) true true,
          h9 (some 4) 0 true true, h10 (some 4) 0 true true,
          h11 0 0 true true,
          ⟨by decide, h12 4 0 0 true (by decide)⟩,
          ⟨by decide, h13 4 0 0 (by decide)⟩,
          ⟨by decide, h14 [some ⟨0, [0]⟩] 1 none (by decide)⟩,
          ⟨by decide, h15 4 5 0 true true (by decide)⟩⟩

/-- Claim C10: GET handler non-atomicity on a malformed request.  When
`x-ack` is present and parses but `x-index` is missing or unparsable, the
handler answers 400 (bad request) — yet the eviction `queue.remove(ack)`
has already been performed, so the channel's queue state after the failed
request is the post-remove state, not the original one. -/
theorem c10_get_ack_nonatomic (q : QState) (a : Nat) (r : QState × Bool)
    (h : queueRemove q a = some r) :
    handleGet false (some q) (some (some a)) none = (HOutcome.badRequest, some r.1)
      ∧ handleGet false (some q) (some (some a)) (some none)
          = (HOutcome.badRequest, some r.1) := by
  constructor <;> simp [handleGet, handleGetIndex, h]

theorem c10_get_ack_nonatomic_witness :
    queueRemove [some ⟨0, [5]⟩, some ⟨1, [6]⟩] 0 = some ([some ⟨1, [6]⟩], true)
      ∧ handleGet false (some [some ⟨0, [5]⟩, some ⟨1, [6]⟩]) (some (some 0)) (some none)
          = (HOutcome.badRequest, some [some ⟨1, [6]⟩])
      ∧ ([some ⟨1, [6]⟩] : QState) ≠ [some ⟨0, [5]⟩, some ⟨1, [6]⟩] := by
  have h : queueRemove [some ⟨0, [5]⟩, some ⟨1, [6]⟩] 0 = some ([some ⟨1, [6]⟩], true) := by
    decide
  exact ⟨h, (c10_get_ack_nonatomic [some ⟨0, [5]⟩, some ⟨1, [6]⟩] 0 ([some ⟨1, [6]⟩], true) h).2,
         by decide⟩
